import Mathlib

/-!
Verification development for the helm templating / YAML pipeline package
(`pkg/yaml` Decode / DecodeMaps, `pkg/helm` injectNamespace /
injectNamespaceBack / cleanManifest / Template argument construction).

Modelling conventions:
  * A decoded YAML value (Go `interface{}` as produced by yaml.v3) is the
    sum type `Value`: null, string scalar, number scalar, bool scalar,
    sequence, mapping.
  * A Go `map[string]interface{}` is modelled as an association list with
    unique keys (`Mapping`); `getVal`/`setVal`/`hasKey` model Go map read,
    write and the `_, ok := m[k]` presence test.
  * The external yaml.v3 decoder is modelled abstractly: a byte input is a
    `YamlInput`, carrying its raw text together with the per-document parse
    outcome of each `---`-separated document in order (`none` = the
    document is syntactically invalid).  The repository's own decode loop
    (`Decode` in pkg/yaml) is translated faithfully over those outcomes.
  * Go's in-place mutation of maps is made explicit: `injectNamespace`
    returns both the Go return value and the post-call state of the
    caller's manifest.
-/

inductive Value where
  | null : Value
  | str : String → Value
  | num : Int → Value
  | boolean : Bool → Value
  | seq : List Value → Value
  | map : List (String × Value) → Value

/-- A Go `map[string]interface{}` (string-keyed mapping with unique keys). -/
abbrev Mapping := List (String × Value)

/-- Go map read `m[k]` distinguishing presence: `none` means the key is
absent, `some Value.null` means the key is present holding YAML null. -/
def getVal : Mapping → String → Option Value
  | [], _ => none
  | (k', v') :: rest, k => if k' == k then some v' else getVal rest k

/-- Go map write `m[k] = v`: replace the entry if the key is present,
otherwise add it. -/
def setVal : Mapping → String → Value → Mapping
  | [], k, v => [(k, v)]
  | (k', v') :: rest, k, v =>
    if k' == k then (k, v) :: rest else (k', v') :: setVal rest k v

/-- Go presence test `_, ok := m[k]`. -/
def hasKey : Mapping → String → Bool
  | [], _ => false
  | (k', _) :: rest, k => k' == k || hasKey rest k

/-- Go comparison `x != nil` on a looked-up map value: a missing key and a
stored YAML null both read back as a nil interface. -/
def goNonNil : Option Value → Bool
  | none => false
  | some Value.null => false
  | some _ => true

/-- Go interface comparison `x == ""` on a looked-up map value: true exactly
when the stored value is the empty string scalar. -/
def goEqEmptyStr : Option Value → Bool
  | some (Value.str s) => s == ""
  | _ => false

/-- Abridged rendering of a decoded value, standing in for Go's `%+v`
formatting in error messages (the message text is not load-bearing). -/
def describeValue : Value → String
  | Value.null => "null"
  | Value.str s => s
  | Value.num n => toString n
  | Value.boolean b => toString b
  | Value.seq _ => "sequence"
  | Value.map _ => "mapping"

/-- A byte input to the decoder, modelled as its raw text plus the parse
outcome of each document the underlying yaml.v3 decoder yields, in stream
order; `none` marks a syntactically invalid document. -/
structure YamlInput where
  raw : String
  docs : List (Option Value)

/-- The decode loop of `Decode` (pkg/yaml): iterate document by document;
a parse error aborts the whole call with an error naming the raw input;
end of stream returns the accumulated values. -/
def decodeLoop (raw : String) : List (Option Value) → Except String (List Value)
  | [] => Except.ok []
  | none :: _ => Except.error ("decoding yaml in yaml document " ++ raw)
  | some v :: rest =>
    match decodeLoop raw rest with
    | Except.ok vs => Except.ok (v :: vs)
    | Except.error e => Except.error e

/-- `Decode` (pkg/yaml): decode a single or multi-document yaml body into a
sequence of generic values; all-or-nothing. -/
def Decode (inp : YamlInput) : Except String (List Value) :=
  decodeLoop inp.raw inp.docs

/-- The projection loop of `DecodeMaps` (pkg/yaml): a nil value contributes
a nil map (`none`), a mapping passes through, anything else aborts with an
error naming the offending value. -/
def projectMaps : List Value → Except String (List (Option Mapping))
  | [] => Except.ok []
  | value :: rest =>
    match value with
    | Value.null =>
      match projectMaps rest with
      | Except.ok ms => Except.ok (none :: ms)
      | Except.error e => Except.error e
    | Value.map m =>
      match projectMaps rest with
      | Except.ok ms => Except.ok (some m :: ms)
      | Except.error e => Except.error e
    | v =>
      Except.error ("unable to reflect value " ++ describeValue v ++
        " as a map of string to value")

/-- `DecodeMaps` (pkg/yaml): decode, then project every decoded value onto
a mapping-or-nil; any decode error propagates unchanged. -/
def DecodeMaps (inp : YamlInput) : Except String (List (Option Mapping)) :=
  match Decode inp with
  | Except.error e => Except.error e
  | Except.ok values => projectMaps values

/-- What a single decoded value contributes to the output of `DecodeMaps`:
null becomes a nil-map placeholder, a mapping passes through unchanged. -/
def projEntry : Value → Option Mapping
  | Value.map m => some m
  | _ => none

/-- The shapes `DecodeMaps` accepts for a decoded document. -/
def isMapOrNull : Value → Bool
  | Value.null => true
  | Value.map _ => true
  | _ => false

/-- Result of a call to `injectNamespace` (pkg/helm): the Go return value
pair, plus the post-call state of the caller's manifest map (the function
mutates its argument in place). -/
structure InjectOutcome where
  ret : Except String (Option Mapping)
  post : Option Mapping

/-- `injectNamespace` (pkg/helm/template.go): nil manifest passes through;
a missing `metadata` key is populated with an empty mapping; a non-mapping
`metadata` is a shape error; a non-nil pre-existing `metadata.namespace` is
a collision error; otherwise `metadata.namespace` is set in place and the
same (mutated) manifest is returned. -/
def injectNamespace (manifest : Option Mapping) (ns : String) : InjectOutcome :=
  match manifest with
  | none => { ret := Except.ok none, post := none }
  | some m =>
    let m1 := if hasKey m "metadata" then m else setVal m "metadata" (Value.map [])
    match getVal m1 "metadata" with
    | some (Value.map metadata) =>
      if goNonNil (getVal metadata "namespace") then
        { ret := Except.error "existing namespace found in yaml", post := some m1 }
      else
        let m2 := setVal m1 "metadata" (Value.map (setVal metadata "namespace" (Value.str ns)))
        { ret := Except.ok (some m2), post := some m2 }
    | _ => { ret := Except.error "reflecting metadata of yaml manifest", post := some m1 }

/-- The loop body of `injectNamespaceBack` (pkg/helm/template.go): a nil
(missing or YAML-null) `metadata` is replaced by a fresh mapping holding the
namespace; a non-mapping `metadata` is an error; a mapping `metadata` whose
`namespace` is nil or the empty string gets the namespace backfilled;
otherwise the manifest is left untouched.  (A nil manifest map, which
`DecodeMaps` can produce from a null document, would be a Go runtime panic
on the map write and is outside this model.) -/
def injectNSInto (m : Mapping) (ns : String) : Except String Mapping :=
  match getVal m "metadata" with
  | none => Except.ok (setVal m "metadata" (Value.map [("namespace", Value.str ns)]))
  | some Value.null =>
    Except.ok (setVal m "metadata" (Value.map [("namespace", Value.str ns)]))
  | some (Value.map metadata) =>
    if !goNonNil (getVal metadata "namespace") || goEqEmptyStr (getVal metadata "namespace") then
      Except.ok (setVal m "metadata" (Value.map (setVal metadata "namespace" (Value.str ns))))
    else
      Except.ok m
  | some _ => Except.error "metadata of manifest is not a map of string to value"

/-- The manifest loop of `injectNamespaceBack`: process the decoded
manifests in order, aborting on the first error. -/
def injectNamespaceBackCore : List Mapping → String → Except String (List Mapping)
  | [], _ => Except.ok []
  | m :: rest, ns =>
    match injectNSInto m ns with
    | Except.error e => Except.error e
    | Except.ok m' =>
      match injectNamespaceBackCore rest ns with
      | Except.error e => Except.error e
      | Except.ok rest' => Except.ok (m' :: rest')

/-- `injectNamespaceBack` (pkg/helm/template.go) at the string level: decode
the unified manifest, backfill each decoded manifest, marshal each result
and join with the document-boundary marker.  The external yaml decode and
marshal are abstract parameters (`dec` stands for DecodeMaps applied to the
parsed input, `marshal` for yaml.Marshal).  The regex-based logic after the
function's return statement in the source is unreachable dead code and is
not modelled. -/
def injectNamespaceBackStr (dec : String → Except String (List Mapping))
    (marshal : Mapping → String) (unifiedManifest : String) (ns : String) :
    Except String String :=
  match dec unifiedManifest with
  | Except.error e => Except.error e
  | Except.ok manifests =>
    match injectNamespaceBackCore manifests ns with
    | Except.error e => Except.error e
    | Except.ok injected =>
      Except.ok (String.intercalate "\n---\n" (injected.map marshal))

/-- The `metadata.namespace` value a manifest carries (`none` when
`metadata` is absent, non-mapping, or lacks the key). -/
def nsOf (m : Mapping) : Option Value :=
  match getVal m "metadata" with
  | some (Value.map metadata) => getVal metadata "namespace"
  | _ => none

/-- The `metadata` shapes on which the batch injector cannot fail: absent,
YAML null, or a mapping. -/
def metadataMapOrNil (m : Mapping) : Bool :=
  match getVal m "metadata" with
  | none => true
  | some Value.null => true
  | some (Value.map _) => true
  | some _ => false

/-- A manifest already carries a non-empty namespace: `metadata` is a
mapping whose `namespace` is non-nil and not the empty string. -/
def hasNonEmptyNS (m : Mapping) : Bool :=
  goNonNil (nsOf m) && !goEqEmptyStr (nsOf m)

/-- Left-to-right, non-overlapping split of a character list on the fixed
four-character separator `"\n---"` used by `cleanManifest` (Go
`strings.Split(manifest, "\n---")`). -/
def splitSep : List Char → List (List Char)
  | '\n' :: '-' :: '-' :: '-' :: rest => [] :: splitSep rest
  | c :: rest =>
    match splitSep rest with
    | [] => [[c]]
    | g :: gs => (c :: g) :: gs
  | [] => [[]]

/-- `strings.Split(s, "\n---")` as a string operation. -/
def goSplit (s : String) : List String :=
  (splitSep s.data).map (fun cs => String.mk cs)

/-- The whitespace recognized by the trim below (the inputs involved only
use ASCII whitespace, where Go's `unicode.IsSpace` agrees). -/
def isSpaceCh (c : Char) : Bool :=
  c = ' ' || c = '\t' || c = '\n' || c = '\r'

/-- Drop leading whitespace characters. -/
def dropLeading : List Char → List Char
  | c :: cs => if isSpaceCh c then dropLeading cs else c :: cs
  | [] => []

/-- Go `strings.TrimSpace`: drop leading and trailing whitespace. -/
def goTrimSpace (s : String) : String :=
  String.mk ((dropLeading (dropLeading s.data.reverse).reverse))

/-- The filter condition of the `cleanManifest` loop: keep a fragment iff
it unmarshals as a mapping and is non-empty after trimming.  The external
yaml unmarshal check is the abstract predicate `unmarshalsAsMap`. -/
def keepEntry (unmarshalsAsMap : String → Bool) (entry : String) : Bool :=
  unmarshalsAsMap entry && !(goTrimSpace entry).isEmpty

/-- `cleanManifest` (pkg/helm/template.go): split on `"\n---"`, drop every
fragment that fails the mapping-shaped unmarshal or is empty after
trimming, re-join the surviving original fragments with `"\n---"`, and trim
the whole result; the Go error return is always nil. -/
def cleanManifest (unmarshalsAsMap : String → Bool) (manifest : String) :
    String × Option String :=
  (goTrimSpace (String.intercalate "\n---"
    ((goSplit manifest).filter (keepEntry unmarshalsAsMap))), none)

/-- `TemplateOptions` (pkg/helm/template.go). -/
structure TemplateOptions where
  Release : String
  Chart : String
  Repo : String
  Version : String
  Namespace : String
  Values : List String
  Set : List String

/-- The arguments `Template` appends after the repository handling: the
namespace flags, the `--set` pairs, the `--values` pairs, the optional
release name, and finally the chart reference. -/
def templateTail (opts : TemplateOptions) : List String :=
  (if opts.Namespace != "" then ["--create-namespace", "--namespace", opts.Namespace] else [])
  ++ (opts.Set.flatMap (fun s => ["--set", s]))
  ++ (opts.Values.flatMap (fun v => ["--values", v]))
  ++ (if opts.Release != "" then [opts.Release] else [])
  ++ [opts.Chart]

/-- The argument-construction phase of `Template` (pkg/helm/template.go,
lines 126-154), up to handing the argument list to the external helm
process.  `findRepoNameByURL` is the Repository Resolver collaborator.
Modelled from the spec: the source of `FindRepoNameByURL` is not in the
repository slice; per the spec it maps a repository URL to the alias of an
already-registered local repository, returning the empty string when none
is registered, or an error. -/
def templateArgs (findRepoNameByURL : String → Except String String)
    (opts : TemplateOptions) : Except String (List String) :=
  if opts.Repo != "" then
    match findRepoNameByURL opts.Repo with
    | Except.error _ =>
      Except.error ("searching existing helm repositories for " ++ opts.Repo)
    | Except.ok existingRepo =>
      if existingRepo != "" then
        Except.ok ("template" ::
          templateTail { opts with Chart := existingRepo ++ "/" ++ opts.Chart })
      else
        Except.ok ("template" :: "--repo" :: opts.Repo :: templateTail opts)
  else
    Except.ok ("template" :: templateTail opts)

theorem getVal_setVal_same (m : Mapping) (k : String) (v : Value) :
    getVal (setVal m k v) k = some v := by
  induction m with
  | nil => simp [setVal, getVal]
  | cons hd tl ih =>
    obtain ⟨k', v'⟩ := hd
    by_cases h : (k' == k) = true
    · simp [setVal, h, getVal]
    · simp [setVal, h, getVal, ih]

theorem setVal_setVal_same (m : Mapping) (k : String) (v w : Value) :
    setVal (setVal m k v) k w = setVal m k w := by
  induction m with
  | nil => simp [setVal]
  | cons hd tl ih =>
    obtain ⟨k', v'⟩ := hd
    by_cases h : (k' == k) = true
    · simp [setVal, h]
    · simp [setVal, h, ih]

theorem setVal_getVal_self (m : Mapping) (k : String) (v : Value)
    (h : getVal m k = some v) : setVal m k v = m := by
  induction m with
  | nil => simp [getVal] at h
  | cons hd tl ih =>
    obtain ⟨k', v'⟩ := hd
    by_cases hk : (k' == k) = true
    · rw [getVal, if_pos hk] at h
      injection h with h
      rw [setVal, if_pos hk, h, eq_of_beq hk]
    · rw [getVal, if_neg hk] at h
      rw [setVal, if_neg hk, ih h]

theorem hasKey_of_getVal (m : Mapping) (k : String) (v : Value)
    (h : getVal m k = some v) : hasKey m k = true := by
  induction m with
  | nil => simp [getVal] at h
  | cons hd tl ih =>
    obtain ⟨k', v'⟩ := hd
    by_cases hk : (k' == k) = true
    · simp [hasKey, hk]
    · rw [getVal, if_neg hk] at h
      simp [hasKey, hk, ih h]

theorem projectMaps_ok (vs : List Value) (h : vs.all isMapOrNull = true) :
    projectMaps vs = Except.ok (vs.map projEntry) := by
  induction vs with
  | nil => rfl
  | cons v rest ih =>
    rw [List.all_cons, Bool.and_eq_true] at h
    obtain ⟨hv, hrest⟩ := h
    cases v with
    | null => simp [projectMaps, ih hrest, projEntry]
    | map m => simp [projectMaps, ih hrest, projEntry]
    | str s => simp [isMapOrNull] at hv
    | num n => simp [isMapOrNull] at hv
    | boolean b => simp [isMapOrNull] at hv
    | seq xs => simp [isMapOrNull] at hv

theorem projectMaps_err (vs : List Value) (h : vs.all isMapOrNull = false) :
    ∃ e, projectMaps vs = Except.error e := by
  induction vs with
  | nil => simp [List.all_nil] at h
  | cons v rest ih =>
    cases v with
    | null =>
      rw [List.all_cons] at h
      simp only [isMapOrNull, Bool.true_and] at h
      obtain ⟨e, he⟩ := ih h
      exact ⟨e, by simp [projectMaps, he]⟩
    | map m =>
      rw [List.all_cons] at h
      simp only [isMapOrNull, Bool.true_and] at h
      obtain ⟨e, he⟩ := ih h
      exact ⟨e, by simp [projectMaps, he]⟩
    | str s => exact ⟨_, rfl⟩
    | num n => exact ⟨_, rfl⟩
    | boolean b => exact ⟨_, rfl⟩
    | seq xs => exact ⟨_, rfl⟩

/-- C1: for every input that decodes without error, `DecodeMaps` returns
one entry per decoded document — each null document contributes a nil-map
placeholder at its position and each mapping passes through unchanged — and
the output length equals the decoded document count; if any decoded
document is a scalar or a sequence, the whole call returns an error and no
results. -/
theorem decodeMaps_projection (inp : YamlInput) (vs : List Value)
    (hdec : Decode inp = Except.ok vs) :
    (vs.all isMapOrNull = true →
      DecodeMaps inp = Except.ok (vs.map projEntry) ∧
      (vs.map projEntry).length = vs.length) ∧
    (vs.all isMapOrNull = false → ∃ e, DecodeMaps inp = Except.error e) := by
  constructor
  · intro h
    refine ⟨?_, by simp⟩
    simp only [DecodeMaps, hdec]
    exact projectMaps_ok vs h
  · intro h
    obtain ⟨e, he⟩ := projectMaps_err vs h
    refine ⟨e, ?_⟩
    simp only [DecodeMaps, hdec]
    exact he

def inpDocs : YamlInput :=
  { raw := "a: b\n---\n", docs := [some (Value.map [("a", Value.str "b")]), some Value.null] }

theorem decodeMaps_projection_w :
    DecodeMaps inpDocs = Except.ok [some [("a", Value.str "b")], none] :=
  ((decodeMaps_projection inpDocs
    [Value.map [("a", Value.str "b")], Value.null] rfl).1 rfl).1

theorem decodeLoop_err (raw : String) (ds : List (Option Value))
    (h : ds.any (fun d => d.isNone) = true) :
    decodeLoop raw ds = Except.error ("decoding yaml in yaml document " ++ raw) := by
  induction ds with
  | nil => simp at h
  | cons d rest ih =>
    cases d with
    | none => rfl
    | some v =>
      rw [List.any_cons] at h
      simp only [Option.isNone, Bool.false_or] at h
      simp [decodeLoop, ih h]

/-- C5: for every byte input containing a syntactically invalid document,
`Decode` returns an error naming the raw input and returns no partial
sequence of documents. -/
theorem decode_abortsOnInvalid (inp : YamlInput)
    (hbad : inp.docs.any (fun d => d.isNone) = true) :
    Decode inp = Except.error ("decoding yaml in yaml document " ++ inp.raw) :=
  decodeLoop_err inp.raw inp.docs hbad

def inpBad : YamlInput :=
  { raw := "a: [", docs := [some (Value.str "x"), none] }

theorem decode_abortsOnInvalid_w :
    Decode inpBad = Except.error ("decoding yaml in yaml document " ++ "a: [") :=
  decode_abortsOnInvalid inpBad rfl

/-- C6: decoding the empty byte input (which yields no documents from the
underlying decoder) returns an empty sequence and no error — not an error
and not a single null document; likewise for `DecodeMaps`. -/
theorem decode_emptyInput :
    Decode { raw := "", docs := [] } = Except.ok [] ∧
    DecodeMaps { raw := "", docs := [] } = Except.ok [] :=
  ⟨rfl, rfl⟩

/-- C2: whenever the metadata mapping already holds a non-null namespace
value, `injectNamespace` returns a collision error for every supplied
namespace string, and the caller's manifest — in particular its existing
`metadata.namespace` — is left unchanged. -/
theorem injectNamespace_collision (m md : Mapping) (ns : String)
    (hmd : getVal m "metadata" = some (Value.map md))
    (hns : goNonNil (getVal md "namespace") = true) :
    (injectNamespace (some m) ns).ret = Except.error "existing namespace found in yaml" ∧
    (injectNamespace (some m) ns).post = some m := by
  have hk : hasKey m "metadata" = true := hasKey_of_getVal m _ _ hmd
  constructor <;> simp [injectNamespace, hk, hmd, hns]

def mColl : Mapping := [("metadata", Value.map [("namespace", Value.str "existing")])]

theorem injectNamespace_collision_w :
    (injectNamespace (some mColl) "foo").ret = Except.error "existing namespace found in yaml" ∧
    (injectNamespace (some mColl) "foo").post = some mColl :=
  injectNamespace_collision mColl [("namespace", Value.str "existing")] "foo" rfl rfl

/-- C4: `injectNamespace` on a nil manifest returns (nil, no error) for
every namespace string; on a manifest with no metadata key it creates the
metadata mapping, sets its namespace to the supplied name, and returns the
same (mutated) manifest with no error. -/
theorem injectNamespace_nilAndCreate (ns : String) (m : Mapping)
    (hnomd : hasKey m "metadata" = false) :
    injectNamespace none ns = { ret := Except.ok none, post := none } ∧
    (injectNamespace (some m) ns).ret =
      Except.ok (some (setVal m "metadata" (Value.map [("namespace", Value.str ns)]))) ∧
    (injectNamespace (some m) ns).post =
      some (setVal m "metadata" (Value.map [("namespace", Value.str ns)])) := by
  have h1 : getVal (setVal m "metadata" (Value.map [])) "metadata" = some (Value.map []) :=
    getVal_setVal_same m "metadata" (Value.map [])
  have h2 : setVal (setVal m "metadata" (Value.map [])) "metadata"
      (Value.map (setVal [] "namespace" (Value.str ns)))
      = setVal m "metadata" (Value.map [("namespace", Value.str ns)]) := by
    rw [setVal_setVal_same]
    rfl
  refine ⟨rfl, ?_, ?_⟩ <;> simp [injectNamespace, hnomd, h1, goNonNil, getVal, h2]

theorem injectNamespace_nilAndCreate_w :
    injectNamespace none "foo" = { ret := Except.ok none, post := none } ∧
    (injectNamespace (some [("kind", Value.str "Deployment")]) "foo").ret =
      Except.ok (some (setVal [("kind", Value.str "Deployment")] "metadata"
        (Value.map [("namespace", Value.str "foo")]))) ∧
    (injectNamespace (some [("kind", Value.str "Deployment")]) "foo").post =
      some (setVal [("kind", Value.str "Deployment")] "metadata"
        (Value.map [("namespace", Value.str "foo")])) :=
  injectNamespace_nilAndCreate "foo" [("kind", Value.str "Deployment")] rfl

/-- C10: when the metadata key is present but holds YAML null,
`injectNamespace` returns an error rather than creating an empty mapping,
leaving the manifest unchanged — only a fully absent metadata key triggers
creation — while the batch loop body `injectNSInto` treats the null
metadata like an absent one and creates the mapping holding the supplied
namespace. -/
theorem injectNamespace_nullMetadataAsymmetry (m : Mapping) (ns : String)
    (hmd : getVal m "metadata" = some Value.null) :
    (injectNamespace (some m) ns).ret = Except.error "reflecting metadata of yaml manifest" ∧
    (injectNamespace (some m) ns).post = some m ∧
    injectNSInto m ns =
      Except.ok (setVal m "metadata" (Value.map [("namespace", Value.str ns)])) := by
  have hk : hasKey m "metadata" = true := hasKey_of_getVal m _ _ hmd
  refine ⟨?_, ?_, ?_⟩ <;> simp [injectNamespace, injectNSInto, hk, hmd]

def mNullMd : Mapping := [("metadata", Value.null)]

theorem injectNamespace_nullMetadataAsymmetry_w :
    (injectNamespace (some mNullMd) "foo").ret =
      Except.error "reflecting metadata of yaml manifest" ∧
    (injectNamespace (some mNullMd) "foo").post = some mNullMd ∧
    injectNSInto mNullMd "foo" =
      Except.ok (setVal mNullMd "metadata" (Value.map [("namespace", Value.str "foo")])) :=
  injectNamespace_nullMetadataAsymmetry mNullMd "foo" rfl

theorem injectNSInto_spec (m : Mapping) (ns : String) (h : metadataMapOrNil m = true) :
    ∃ m', injectNSInto m ns = Except.ok m' ∧
      (hasNonEmptyNS m = true → m' = m) ∧
      (hasNonEmptyNS m = false → nsOf m' = some (Value.str ns)) := by
  cases hmd : getVal m "metadata" with
  | none =>
    refine ⟨setVal m "metadata" (Value.map [("namespace", Value.str ns)]),
      by simp [injectNSInto, hmd], ?_, ?_⟩
    · intro hne
      simp [hasNonEmptyNS, nsOf, hmd, goNonNil] at hne
    · intro _
      simp [nsOf, getVal_setVal_same, getVal]
  | some v =>
    cases v with
    | null =>
      refine ⟨setVal m "metadata" (Value.map [("namespace", Value.str ns)]),
        by simp [injectNSInto, hmd], ?_, ?_⟩
      · intro hne
        simp [hasNonEmptyNS, nsOf, hmd, goNonNil] at hne
      · intro _
        simp [nsOf, getVal_setVal_same, getVal]
    | map md =>
      have hns : hasNonEmptyNS m
          = (goNonNil (getVal md "namespace") && !goEqEmptyStr (getVal md "namespace")) := by
        simp [hasNonEmptyNS, nsOf, hmd]
      cases hA : goNonNil (getVal md "namespace") with
      | false =>
        refine ⟨setVal m "metadata" (Value.map (setVal md "namespace" (Value.str ns))),
          by simp [injectNSInto, hmd, hA], ?_, ?_⟩
        · intro hne
          rw [hns, hA] at hne
          simp at hne
        · intro _
          simp [nsOf, getVal_setVal_same]
      | true =>
        cases hB : goEqEmptyStr (getVal md "namespace") with
        | true =>
          refine ⟨setVal m "metadata" (Value.map (setVal md "namespace" (Value.str ns))),
            by simp [injectNSInto, hmd, hA, hB], ?_, ?_⟩
          · intro hne
            rw [hns, hA, hB] at hne
            simp at hne
          · intro _
            simp [nsOf, getVal_setVal_same]
        | false =>
          refine ⟨m, by simp [injectNSInto, hmd, hA, hB], fun _ => rfl, ?_⟩
          intro hne
          rw [hns, hA, hB] at hne
          simp at hne
    | str s => simp [metadataMapOrNil, hmd] at h
    | num n => simp [metadataMapOrNil, hmd] at h
    | boolean b => simp [metadataMapOrNil, hmd] at h
    | seq xs => simp [metadataMapOrNil, hmd] at h

/-- C3: on every manifest set whose metadata values are absent, null or
mappings, the batch injector succeeds — it never fails because of an
existing namespace — returning one manifest per input manifest in order;
a manifest already carrying a non-empty namespace is returned untouched,
and every other manifest (namespace missing, null or the empty string) gets
`metadata.namespace` set to the supplied namespace. -/
theorem injectNamespaceBack_backfills (ms : List Mapping) (ns : String)
    (h : ms.all metadataMapOrNil = true) :
    ∃ r, injectNamespaceBackCore ms ns = Except.ok r ∧ r.length = ms.length ∧
      ∀ pr ∈ ms.zip r,
        (hasNonEmptyNS pr.1 = true → pr.2 = pr.1) ∧
        (hasNonEmptyNS pr.1 = false → nsOf pr.2 = some (Value.str ns)) := by
  induction ms with
  | nil => exact ⟨[], rfl, rfl, by simp⟩
  | cons m rest ih =>
    rw [List.all_cons, Bool.and_eq_true] at h
    obtain ⟨hm, hrest⟩ := h
    obtain ⟨m', hok, huntouched, hset⟩ := injectNSInto_spec m ns hm
    obtain ⟨r, hr, hlen, hzip⟩ := ih hrest
    refine ⟨m' :: r, ?_, ?_, ?_⟩
    · simp [injectNamespaceBackCore, hok, hr]
    · simp [hlen]
    · intro pr hpr
      rw [List.zip_cons_cons, List.mem_cons] at hpr
      rcases hpr with hpr | hpr
      · subst hpr
        exact ⟨huntouched, hset⟩
      · exact hzip pr hpr

def msBack : List Mapping :=
  [[("metadata", Value.map [("namespace", Value.str "keep")])], []]

theorem injectNamespaceBack_backfills_w :
    ∃ r, injectNamespaceBackCore msBack "ns1" = Except.ok r ∧ r.length = msBack.length ∧
      ∀ pr ∈ msBack.zip r,
        (hasNonEmptyNS pr.1 = true → pr.2 = pr.1) ∧
        (hasNonEmptyNS pr.1 = false → nsOf pr.2 = some (Value.str "ns1")) :=
  injectNamespaceBack_backfills msBack "ns1" rfl

theorem injectNSInto_fresh_idem (m mdX : Mapping) (ns : String)
    (hget : getVal mdX "namespace" = some (Value.str ns))
    (hset : setVal mdX "namespace" (Value.str ns) = mdX) :
    injectNSInto (setVal m "metadata" (Value.map mdX)) ns
      = Except.ok (setVal m "metadata" (Value.map mdX)) := by
  have h1 : getVal (setVal m "metadata" (Value.map mdX)) "metadata"
      = some (Value.map mdX) := getVal_setVal_same m "metadata" (Value.map mdX)
  by_cases hns : ns = ""
  · subst hns
    simp [injectNSInto, h1, hget, goNonNil, goEqEmptyStr, hset, setVal_setVal_same]
  · simp [injectNSInto, h1, hget, goNonNil, goEqEmptyStr, hns]

theorem injectNSInto_idem (m m' : Mapping) (ns : String)
    (h : injectNSInto m ns = Except.ok m') : injectNSInto m' ns = Except.ok m' := by
  cases hmd : getVal m "metadata" with
  | none =>
    simp only [injectNSInto, hmd, Except.ok.injEq] at h
    subst h
    exact injectNSInto_fresh_idem m [("namespace", Value.str ns)] ns
      (by simp [getVal]) (by simp [setVal])
  | some v =>
    cases v with
    | null =>
      simp only [injectNSInto, hmd, Except.ok.injEq] at h
      subst h
      exact injectNSInto_fresh_idem m [("namespace", Value.str ns)] ns
        (by simp [getVal]) (by simp [setVal])
    | map md =>
      simp only [injectNSInto, hmd] at h
      by_cases hc : (!goNonNil (getVal md "namespace")
          || goEqEmptyStr (getVal md "namespace")) = true
      · rw [if_pos hc] at h
        rw [Except.ok.injEq] at h
        subst h
        exact injectNSInto_fresh_idem m (setVal md "namespace" (Value.str ns)) ns
          (getVal_setVal_same md "namespace" (Value.str ns))
          (setVal_setVal_same md "namespace" (Value.str ns) (Value.str ns))
      · rw [if_neg hc] at h
        rw [Except.ok.injEq] at h
        subst h
        simp only [injectNSInto, hmd]
        rw [if_neg hc]
    | str s =>
      simp only [injectNSInto, hmd] at h
      exact Except.noConfusion h
    | num n =>
      simp only [injectNSInto, hmd] at h
      exact Except.noConfusion h
    | boolean b =>
      simp only [injectNSInto, hmd] at h
      exact Except.noConfusion h
    | seq xs =>
      simp only [injectNSInto, hmd] at h
      exact Except.noConfusion h

theorem injectBackCore_idem (ms : List Mapping) (r : List Mapping) (ns : String)
    (h : injectNamespaceBackCore ms ns = Except.ok r) :
    injectNamespaceBackCore r ns = Except.ok r := by
  induction ms generalizing r with
  | nil =>
    simp only [injectNamespaceBackCore, Except.ok.injEq] at h
    subst h
    rfl
  | cons m rest ih =>
    simp only [injectNamespaceBackCore] at h
    cases hm : injectNSInto m ns with
    | error e => rw [hm] at h; simp at h
    | ok m' =>
      rw [hm] at h
      cases hrest : injectNamespaceBackCore rest ns with
      | error e => rw [hrest] at h; simp at h
      | ok rest' =>
        rw [hrest] at h
        rw [Except.ok.injEq] at h
        subst h
        have h1 := injectNSInto_idem m m' ns hm
        have h2 := ih rest' hrest
        simp [injectNamespaceBackCore, h1, h2]

/-- C8: the batch namespace backfill is idempotent — whenever it succeeds
on a manifest stream, applying it again with the same namespace to its own
output reproduces that output; the external yaml decode and marshal are
abstract, related by the round-trip hypothesis `h3` (decoding the
marshalled output yields the injected manifests back). -/
theorem injectNamespaceBack_idempotent (dec : String → Except String (List Mapping))
    (marshal : Mapping → String) (s ns : String) (ms ms' : List Mapping)
    (h1 : dec s = Except.ok ms)
    (h2 : injectNamespaceBackCore ms ns = Except.ok ms')
    (h3 : dec (String.intercalate "\n---\n" (ms'.map marshal)) = Except.ok ms') :
    injectNamespaceBackStr dec marshal s ns
      = Except.ok (String.intercalate "\n---\n" (ms'.map marshal)) ∧
    injectNamespaceBackStr dec marshal (String.intercalate "\n---\n" (ms'.map marshal)) ns
      = Except.ok (String.intercalate "\n---\n" (ms'.map marshal)) := by
  constructor
  · simp [injectNamespaceBackStr, h1, h2]
  · simp [injectNamespaceBackStr, h3, injectBackCore_idem ms ms' ns h2]

def msIdem : List Mapping := [[("metadata", Value.map [("namespace", Value.str "a")])]]

def decIdem : String → Except String (List Mapping) := fun t =>
  if t == "s0" then Except.ok msIdem
  else if t == "m: x" then Except.ok msIdem
  else Except.error "parse"

def marshalIdem : Mapping → String := fun _ => "m: x"

theorem injectNamespaceBack_idempotent_w :
    injectNamespaceBackStr decIdem marshalIdem "s0" "b"
      = Except.ok (String.intercalate "\n---\n" (msIdem.map marshalIdem)) ∧
    injectNamespaceBackStr decIdem marshalIdem
        (String.intercalate "\n---\n" (msIdem.map marshalIdem)) "b"
      = Except.ok (String.intercalate "\n---\n" (msIdem.map marshalIdem)) :=
  injectNamespaceBack_idempotent decIdem marshalIdem "s0" "b" msIdem msIdem rfl rfl rfl

/-- C7: `cleanManifest` splits its input on the boundary marker, discards
every fragment that fails the mapping-shaped parse (here the abstract
predicate `p`, standing for the external yaml unmarshal) and every fragment
empty after trimming, rejoins the survivors with the marker and trims the
result; on the documented example the invalid middle fragment is dropped,
and the error return is always nil. -/
theorem cleanManifest_dropsInvalid (p : String → Bool)
    (h1 : p "foo: I am valid" = true)
    (h2 : p "\nI\x27m not valid" = false)
    (h3 : p "\nbar: I am valid" = true) :
    cleanManifest p "foo: I am valid\n---\nI\x27m not valid\n---\nbar: I am valid"
      = ("foo: I am valid\n---\nbar: I am valid", none) ∧
    ∀ q m, (cleanManifest q m).2 = none := by
  refine ⟨?_, fun q m => rfl⟩
  have hsplit : goSplit "foo: I am valid\n---\nI\x27m not valid\n---\nbar: I am valid"
      = ["foo: I am valid", "\nI\x27m not valid", "\nbar: I am valid"] := rfl
  have k1 : keepEntry p "foo: I am valid" = true := by
    simp only [keepEntry, h1]
    rfl
  have k2 : keepEntry p "\nI\x27m not valid" = false := by
    simp only [keepEntry, h2]
    rfl
  have k3 : keepEntry p "\nbar: I am valid" = true := by
    simp only [keepEntry, h3]
    rfl
  simp only [cleanManifest, hsplit, List.filter_cons, k1, k2, k3, if_true, if_false,
    List.filter_nil]
  rfl

def pClean : String → Bool := fun s => !(s == "\nI\x27m not valid")

theorem cleanManifest_dropsInvalid_w :
    cleanManifest pClean "foo: I am valid\n---\nI\x27m not valid\n---\nbar: I am valid"
      = ("foo: I am valid\n---\nbar: I am valid", none) ∧
    ∀ q m, (cleanManifest q m).2 = none :=
  cleanManifest_dropsInvalid pClean rfl rfl rfl

/-- C9: when the options carry a non-empty repository URL, the helm
argument list is built by consulting the Repository Resolver: if an
existing local alias is reported, the chart reference is prefixed with the
alias and no explicit `--repo` flag is added; otherwise the `--repo` flag
with the URL is added and the chart reference is left as-is. -/
theorem template_resolvesRepo (findRepoNameByURL : String → Except String String)
    (opts : TemplateOptions) (aliasName : String)
    (hrepo : (opts.Repo != "") = true)
    (hres : findRepoNameByURL opts.Repo = Except.ok aliasName) :
    ((aliasName != "") = true →
      templateArgs findRepoNameByURL opts =
        Except.ok ("template" ::
          templateTail { opts with Chart := aliasName ++ "/" ++ opts.Chart })) ∧
    (aliasName = "" →
      templateArgs findRepoNameByURL opts =
        Except.ok ("template" :: "--repo" :: opts.Repo :: templateTail opts)) := by
  constructor
  · intro ha
    simp [templateArgs, hrepo, hres, ha]
  · intro ha
    subst ha
    simp [templateArgs, hrepo, hres]

def resolveW : String → Except String String := fun _ => Except.ok "stable"

def optsW : TemplateOptions :=
  { Release := "", Chart := "nginx", Repo := "https://charts.example.com", Version := "",
    Namespace := "", Values := [], Set := [] }

theorem template_resolvesRepo_w :
    templateArgs resolveW optsW = Except.ok ["template", "stable/nginx"] :=
  (template_resolvesRepo resolveW optsW "stable" rfl rfl).1 rfl
